import Mathlib

/-!
# Verification of the libuavcan transfer buffer subsystem

Shallow embedding of `src/libuavcan/include/uavcan/transport/transfer_buffer.hpp`:
the buffer key, the static transfer buffer, the dynamic (pool-backed) buffer
entry, and the transfer buffer manager with its create/access/remove operations
and opportunistic storage optimization (migration).

Bytes are modelled as natural numbers, buffers as lists of bytes.  `unsigned`
quantities are modelled as `Nat` (the library only ever handles offsets and
lengths far below the machine word bound, and C++ out-of-bounds accesses that an
overflowing sum would cause are undefined behaviour, not representable wrap
semantics).  Null data pointers are not representable: read/write take and
return byte lists, matching every non-null-pointer execution of the C++ code.
-/

namespace Uavcan

/-- Key identifying a reassembly slot: peer node id plus transfer type.
The node id is modelled from the spec (NodeID is an external opaque comparable
type with a distinguished invalid value): `0` denotes the invalid node id, any
other value a valid one.  Equality is structural, as `operator==` in the C++
code compares both fields. -/
structure MgrKey where
  nodeId : Nat
  transferType : Nat
deriving DecidableEq, Repr

/-- `TransferBufferManagerKey::isEmpty`: a key is empty iff its node id is
invalid. -/
def MgrKey.isEmpty (k : MgrKey) : Bool := k.nodeId == 0

/-- The default-constructed key (invalid node id, transfer type 0), used by the
manager as the free-slot sentinel. -/
def emptyKey : MgrKey := ⟨0, 0⟩

/-- Overwrite `dst` starting at `offset` with the bytes of `src`
(`std::copy(src, src + src.length, dst + offset)`). -/
def listWrite (dst : List Nat) (offset : Nat) (src : List Nat) : List Nat :=
  dst.take offset ++ src ++ dst.drop (offset + src.length)

/-- `StaticTransferBuffer<Size>`: a byte array of length `Size` (the capacity
is the length of `data`) plus the high-water mark `max_write_pos_`.
The constructor zero-fills the array. -/
structure StaticBuffer where
  data : List Nat
  maxWritePos : Nat
deriving DecidableEq, Repr

/-- A freshly constructed `StaticTransferBuffer<size>`: zero-filled data,
`max_write_pos_ = 0`. -/
def StaticBuffer.init (size : Nat) : StaticBuffer :=
  { data := List.replicate size 0, maxWritePos := 0 }

/-- `StaticTransferBuffer::read(offset, data, len)` for a non-null output
pointer: clamps to `max_write_pos_` and copies.  Returns the bytes copied (the
C++ return value is their count). -/
def StaticBuffer.read (b : StaticBuffer) (offset len : Nat) : List Nat :=
  if offset ≥ b.maxWritePos then []
  else
    let len' := if offset + len > b.maxWritePos then b.maxWritePos - offset else len
    (b.data.drop offset).take len'

/-- `StaticTransferBuffer::write(offset, data, len)` for a non-null input
pointer, `bytes` being the `len` input bytes: returns the updated buffer and
the number of bytes actually written. -/
def StaticBuffer.write (b : StaticBuffer) (offset : Nat) (bytes : List Nat) :
    StaticBuffer × Nat :=
  if offset ≥ b.data.length then (b, 0)
  else
    let len' := if offset + bytes.length > b.data.length
                then b.data.length - offset else bytes.length
    ({ data := listWrite b.data offset (bytes.take len'),
       maxWritePos := max (offset + len') b.maxWritePos }, len')

/-- `StaticTransferBuffer::reset()` in a release build: only the high-water
mark is cleared (the debug-only zero-fill does not affect observable reads,
which clamp to the mark). -/
def StaticBuffer.reset (b : StaticBuffer) : StaticBuffer :=
  { b with maxWritePos := 0 }

/-! ## Dynamic buffer entries

`DynamicTransferBufferManagerEntry` is declared in the header; the bodies of
its `read`/`write`/`instantiate`/`destroy` live in a source file that is not
part of this repository snapshot, so they are modelled from the spec
(sections 3 and 4.2).  A dynamic entry owns a chain of fixed-size pool blocks
ordered by increasing buffer offset and contiguous from offset 0; we represent
the chain by the flat list of its bytes (`data`, of length
`blockSize * numBlocks`) together with the block count used for pool
accounting.  The shared pool allocator (an external collaborator per the spec)
is modelled by its count of free fixed-size blocks: allocation succeeds iff at
least one block is free and consumes one block; freeing returns one block. -/

/-- A dynamic transfer buffer entry: owning key, immutable growth cap
`max_size_`, high-water mark `max_write_pos_`, and the block chain
(`numBlocks` pool blocks whose concatenated contents are `data`). -/
structure DynBuf where
  key : MgrKey
  maxSize : Nat
  maxWritePos : Nat
  numBlocks : Nat
  data : List Nat
deriving DecidableEq, Repr

/-- Modelled from the spec: `DynamicTransferBufferManagerEntry::read` (body not
under `src/`): walks the block chain from the first block covering `offset`,
copies across block boundaries clamped to `max_write_pos`, and returns the
bytes copied (the C++ return value is their count). -/
def DynBuf.read (d : DynBuf) (offset len : Nat) : List Nat :=
  if offset ≥ d.maxWritePos then []
  else
    let len' := if offset + len > d.maxWritePos then d.maxWritePos - offset else len
    (d.data.drop offset).take len'

/-- Modelled from the spec: `DynamicTransferBufferManagerEntry::write` (body
not under `src/`): truncates the request at `max_size_`, allocates additional
blocks from the pool as required to cover the target offset range (appending
them in offset order), overwrites bytes already covered in place, stops early
if the pool runs out mid-growth (partial write), and returns the updated
entry, the number of bytes actually written, and the remaining pool.  The
high-water mark records the furthest offset plus length actually written. -/
def DynBuf.write (bs : Nat) (d : DynBuf) (offset : Nat) (bytes : List Nat)
    (pool : Nat) : DynBuf × Nat × Nat :=
  if offset ≥ d.maxSize then (d, 0, pool)
  else
    let wlen := if offset + bytes.length > d.maxSize
                then d.maxSize - offset else bytes.length
    if wlen = 0 then (d, 0, pool)
    else
      let needBlocks := (offset + wlen + bs - 1) / bs
      let allocCount := min (needBlocks - d.numBlocks) pool
      let numBlocks' := d.numBlocks + allocCount
      let coverage := bs * numBlocks'
      let written := if coverage ≤ offset then 0 else min wlen (coverage - offset)
      let data' := listWrite (d.data ++ List.replicate (bs * allocCount) 0)
                     offset (bytes.take written)
      ({ d with
          numBlocks := numBlocks'
          data := data'
          maxWritePos := if written = 0 then d.maxWritePos
                         else max d.maxWritePos (offset + written) },
       written, pool - allocCount)

/-- Modelled from the spec: `DynamicTransferBufferManagerEntry::instantiate`:
the entry object is itself allocated from one pool block; returns `none` on
pool exhaustion.  A fresh entry has the sentinel key, no blocks, and the given
growth cap. -/
def dynInstantiate (maxSize : Nat) (pool : Nat) : Option DynBuf × Nat :=
  if pool = 0 then (none, pool)
  else (some { key := emptyKey, maxSize := maxSize, maxWritePos := 0,
               numBlocks := 0, data := [] }, pool - 1)

/-- Modelled from the spec: `DynamicTransferBufferManagerEntry::destroy`:
`reset()` releases every chain block back to the pool, then the entry object's
own block is freed.  Returns the new pool free-block count. -/
def dynDestroy (d : DynBuf) (pool : Nat) : Nat := pool + 1 + d.numBlocks

/-! ## Static manager entries -/

/-- `StaticTransferBufferManagerEntry<Size>`: a `TransferBufferManagerEntry`
(owning key) wrapping a `StaticTransferBuffer<Size>`. -/
structure StaticEntry where
  key : MgrKey
  buf : StaticBuffer
deriving DecidableEq, Repr

/-- The default entry used to total out-of-range list indexing (never reached
under the index bounds established by `findFirstStatic`). -/
def defaultStatic : StaticEntry := { key := emptyKey, buf := ⟨[], 0⟩ }

/-- `TransferBufferManagerEntry::reset(key)` on a static entry: install the
key and run `resetImpl` (which resets the wrapped static buffer). -/
def StaticEntry.resetWith (e : StaticEntry) (k : MgrKey) : StaticEntry :=
  { key := k, buf := e.buf.reset }

/-- `StaticTransferBufferManagerEntry::migrateFrom(tbme)` with a (non-null)
dynamic source entry: resets self to the source's key, bulk-reads the source
into the raw static array, installs the read count as the high-water mark, and
verifies that the whole source content fit; on the fit check failing the entry
is reset back to empty and `false` is returned.  (The `res < 0` branch is
unreachable: reads with a non-null output pointer never fail.) -/
def migrateFrom (sb : StaticEntry) (src : DynBuf) : StaticEntry × Bool :=
  if src.key.isEmpty then (sb, false)
  else
    let size := sb.buf.data.length
    let bytes := src.read 0 size
    let sb2 : StaticEntry :=
      { key := src.key,
        buf := { data := listWrite sb.buf.data 0 bytes, maxWritePos := bytes.length } }
    if bytes.length < size then (sb2, true)
    else if (src.read size 1).length > 0 then
      (sb2.resetWith emptyKey, false)
    else (sb2, true)

/-! ## The transfer buffer manager -/

/-- `TransferBufferManager<MaxBufSize, NumStaticBufs>`: the static entries
(each of capacity `maxBufSize`), the linked list of dynamic entries (head
first, `LinkedListRoot::insert` prepends), and the shared pool allocator
(modelled by its free-block count; `blockSize` is the usable data size of one
pool block). -/
structure Manager where
  maxBufSize : Nat
  blockSize : Nat
  statics : List StaticEntry
  dynamics : List DynBuf
  pool : Nat
deriving DecidableEq, Repr

/-- `TransferBufferManager::findFirstStatic(key)`: index of the first static
entry whose key equals `key` (the C++ returns a pointer into the array). -/
def findFirstStatic (k : MgrKey) : List StaticEntry → Option Nat
  | [] => none
  | e :: rest =>
    if e.key = k then some 0 else (findFirstStatic k rest).map (· + 1)

/-- `TransferBufferManager::findFirstDynamic(key)`: the first dynamic entry in
the list whose key equals `key`. -/
def findFirstDynamic (k : MgrKey) : List DynBuf → Option DynBuf
  | [] => none
  | d :: rest => if d.key = k then some d else findFirstDynamic k rest

/-- `LinkedListRoot::remove` of the node returned by `findFirstDynamic`:
unlink the first dynamic entry whose key equals `key`. -/
def removeFirstDynamic (k : MgrKey) : List DynBuf → List DynBuf
  | [] => []
  | d :: rest => if d.key = k then rest else d :: removeFirstDynamic k rest

/-- One bounded unrolling of the `while` loop of
`TransferBufferManager::optimizeStorage`: while the dynamic list is non-empty
and a free static slot exists, migrate the first dynamic entry into the first
free static slot; on success destroy the dynamic entry (returning its blocks
and its own block to the pool) and continue; on failure reset the slot and
stop.  Each successful iteration shortens the dynamic list by one, so
`dynamics.length` steps of fuel make the unrolling exact. -/
def optLoop : Nat → Manager → Manager
  | 0, m => m
  | fuel + 1, m =>
    match m.dynamics with
    | [] => m
    | d :: rest =>
      match findFirstStatic emptyKey m.statics with
      | none => m
      | some i =>
        let sb := m.statics.getD i defaultStatic
        let r := migrateFrom sb d
        if r.2 then
          optLoop fuel { m with
            statics := m.statics.set i r.1
            dynamics := rest
            pool := dynDestroy d m.pool }
        else
          { m with statics := m.statics.set i (r.1.resetWith emptyKey) }

/-- `TransferBufferManager::optimizeStorage()`. -/
def optimizeStorage (m : Manager) : Manager := optLoop m.dynamics.length m

/-- `TransferBufferManager::remove(key)`: reset a matching static entry and
run storage optimization, or unlink and destroy a matching dynamic entry. -/
def Manager.remove (m : Manager) (k : MgrKey) : Manager :=
  match findFirstStatic k m.statics with
  | some i =>
    let e := m.statics.getD i defaultStatic
    optimizeStorage { m with statics := m.statics.set i (e.resetWith emptyKey) }
  | none =>
    match findFirstDynamic k m.dynamics with
    | some d =>
      { m with dynamics := removeFirstDynamic k m.dynamics,
               pool := dynDestroy d m.pool }
    | none => m

/-- `TransferBufferManager::create(key)`: reject an empty key, remove any
pre-existing entry for `key`, then claim the first free static slot, falling
back to instantiating a dynamic entry (prepended to the list) when no slot is
free; the activated entry gets `reset(key)`.  The `Bool` result models the
returned pointer being non-null. -/
def Manager.create (m : Manager) (k : MgrKey) : Manager × Bool :=
  if k.isEmpty then (m, false)
  else
    let m1 := m.remove k
    match findFirstStatic emptyKey m1.statics with
    | some i =>
      let e := m1.statics.getD i defaultStatic
      ({ m1 with statics := m1.statics.set i (e.resetWith k) }, true)
    | none =>
      match dynInstantiate m1.maxBufSize m1.pool with
      | (none, _) => (m1, false)
      | (some d, pool') =>
        ({ m1 with dynamics := { d with key := k } :: m1.dynamics, pool := pool' },
         true)

/-- `TransferBufferManager::access(key)`: the live entry for `key`, scanning
static slots first, then the dynamic list; `none` when absent (or when the
key is empty, a caller contract violation). -/
def Manager.access (m : Manager) (k : MgrKey) : Option (StaticEntry ⊕ DynBuf) :=
  if k.isEmpty then none
  else
    match findFirstStatic k m.statics with
    | some i => some (Sum.inl (m.statics.getD i defaultStatic))
    | none => (findFirstDynamic k m.dynamics).map Sum.inr

/-- Reading through the handle `access(key)` returns
(`ITransferBuffer::read` dispatches to the found entry). -/
def Manager.accessRead (m : Manager) (k : MgrKey) (offset len : Nat) :
    Option (List Nat) :=
  (m.access k).map fun
    | Sum.inl e => e.buf.read offset len
    | Sum.inr d => d.read offset len

/-- Replace the first dynamic entry whose key is `k` (the in-place mutation a
write through a dynamic handle performs). -/
def replaceFirstDynamic (k : MgrKey) (d' : DynBuf) : List DynBuf → List DynBuf
  | [] => []
  | d :: rest => if d.key = k then d' :: rest else d :: replaceFirstDynamic k d' rest

/-- Writing through the handle `create`/`access` returned, identified by its
key (the entry a handle denotes is the unique live entry under its key):
returns the updated manager and the bytes-written count. -/
def Manager.writeTo (m : Manager) (k : MgrKey) (offset : Nat) (bytes : List Nat) :
    Manager × Nat :=
  match findFirstStatic k m.statics with
  | some i =>
    let e := m.statics.getD i defaultStatic
    let r := e.buf.write offset bytes
    ({ m with statics := m.statics.set i { e with buf := r.1 } }, r.2)
  | none =>
    match findFirstDynamic k m.dynamics with
    | some d =>
      let r := DynBuf.write m.blockSize d offset bytes m.pool
      ({ m with dynamics := replaceFirstDynamic k r.1 m.dynamics,
                pool := r.2.2 }, r.2.1)
    | none => (m, 0)

/-- A freshly constructed `TransferBufferManager<cap, n>` sharing an allocator
that currently has `pool` free blocks of usable size `bs`. -/
def Manager.init (cap n bs pool : Nat) : Manager :=
  { maxBufSize := cap, blockSize := bs,
    statics := List.replicate n { key := emptyKey, buf := StaticBuffer.init cap },
    dynamics := [], pool := pool }

/-! ## The key-uniqueness invariant -/

/-- Whether a key denotes a live entry. -/
def notEmptyK (k : MgrKey) : Bool := !k.isEmpty

/-- The keys of all live entries of the manager: non-empty static keys
followed by the dynamic keys. -/
def liveKeys (m : Manager) : List MgrKey :=
  (m.statics.map (·.key)).filter notEmptyK ++ m.dynamics.map (·.key)

/-- The manager invariant: live keys are pairwise distinct and every dynamic
entry carries a non-empty key. -/
def Inv (m : Manager) : Prop :=
  (liveKeys m).Nodup ∧ ∀ d ∈ m.dynamics, d.key.isEmpty = false

instance (m : Manager) : Decidable (Inv m) := by
  unfold Inv
  infer_instance

/-- A call the transport layer can make on the manager (sections 4.3/4.5 of the
spec): `create(key)` or `remove(key)`. -/
inductive MgrOp where
  | cre (k : MgrKey)
  | rem (k : MgrKey)
deriving DecidableEq, Repr

/-- The key an operation carries. -/
def MgrOp.key : MgrOp → MgrKey
  | .cre k => k
  | .rem k => k

/-- Apply one call to the manager. -/
def applyOp (m : Manager) : MgrOp → Manager
  | .cre k => (m.create k).1
  | .rem k => m.remove k

/-- Run a sequence of create/remove calls left to right. -/
def runOps (m : Manager) (ops : List MgrOp) : Manager := ops.foldl applyOp m

/-! ## Basic facts about `listWrite` -/

theorem listWrite_length (dst : List Nat) (offset : Nat) (src : List Nat)
    (h : offset + src.length ≤ dst.length) :
    (listWrite dst offset src).length = dst.length := by
  unfold listWrite
  simp only [List.length_append, List.length_take, List.length_drop]
  omega

theorem listWrite_getElem?_left (dst : List Nat) (offset : Nat) (src : List Nat)
    (i : Nat) (hoff : offset ≤ dst.length) (hi : i < offset) :
    (listWrite dst offset src)[i]? = dst[i]? := by
  unfold listWrite
  rw [List.append_assoc, List.getElem?_append_left, List.getElem?_take_of_lt hi]
  simp only [List.length_take]
  omega

theorem listWrite_getElem?_right (dst : List Nat) (offset : Nat) (src : List Nat)
    (i : Nat) (hoff : offset ≤ dst.length) (hi : offset + src.length ≤ i) :
    (listWrite dst offset src)[i]? = dst[i]? := by
  unfold listWrite
  have hlen : (dst.take offset ++ src).length = offset + src.length := by
    simp only [List.length_append, List.length_take]
    omega
  rw [List.getElem?_append_right (by omega : (dst.take offset ++ src).length ≤ i)]
  rw [List.getElem?_drop, hlen]
  congr 1
  omega

theorem listWrite_prefix (dst : List Nat) (src : List Nat) :
    (listWrite dst 0 src).take src.length = src := by
  unfold listWrite
  simp


theorem notEmptyK_emptyKey : notEmptyK emptyKey = false := rfl

/-! ### Filter/set lemmas on key lists -/

theorem filter_set_empty_sublist (l : List MgrKey) (i : Nat) :
    ((l.set i emptyKey).filter notEmptyK).Sublist (l.filter notEmptyK) := by
  induction l generalizing i with
  | nil => simp
  | cons hd tl ih =>
    cases i with
    | zero =>
      rw [List.set_cons_zero, List.filter_cons, List.filter_cons, notEmptyK_emptyKey]
      rw [if_neg (by simp)]
      by_cases h : notEmptyK hd = true
      · rw [if_pos h]
        exact List.Sublist.cons _ (List.Sublist.refl _)
      · rw [if_neg h]
    | succ i =>
      rw [List.set_cons_succ, List.filter_cons, List.filter_cons]
      by_cases h : notEmptyK hd = true
      · rw [if_pos h, if_pos h]
        exact List.Sublist.cons₂ hd (ih i)
      · rw [if_neg h, if_neg h]
        exact ih i

theorem filter_set_perm_free (l : List MgrKey) (i : Nat) (k : MgrKey)
    (hfree : l[i]? = some emptyKey) (hk : notEmptyK k = true) :
    ((l.set i k).filter notEmptyK).Perm (k :: l.filter notEmptyK) := by
  induction l generalizing i with
  | nil => simp at hfree
  | cons hd tl ih =>
    cases i with
    | zero =>
      simp only [List.getElem?_cons_zero, Option.some_inj] at hfree
      subst hfree
      rw [List.set_cons_zero, List.filter_cons, List.filter_cons, notEmptyK_emptyKey]
      rw [if_pos hk, if_neg (by simp)]
    | succ i =>
      simp only [List.getElem?_cons_succ] at hfree
      rw [List.set_cons_succ, List.filter_cons, List.filter_cons]
      by_cases h : notEmptyK hd = true
      · rw [if_pos h, if_pos h]
        exact ((ih i hfree).cons hd).trans (List.Perm.swap k hd _)
      · rw [if_neg h, if_neg h]
        exact ih i hfree

theorem filter_set_perm_erase (l : List MgrKey) (i : Nat) (k : MgrKey)
    (hik : l[i]? = some k) (hk : notEmptyK k = true) :
    ((l.set i emptyKey).filter notEmptyK).Perm ((l.filter notEmptyK).erase k) := by
  induction l generalizing i with
  | nil => simp at hik
  | cons hd tl ih =>
    cases i with
    | zero =>
      simp only [List.getElem?_cons_zero, Option.some_inj] at hik
      subst hik
      rw [List.set_cons_zero, List.filter_cons, List.filter_cons, notEmptyK_emptyKey]
      rw [if_pos hk, if_neg (by simp), List.erase_cons_head]
    | succ i =>
      simp only [List.getElem?_cons_succ] at hik
      have hmem : k ∈ tl := List.mem_iff_getElem?.mpr ⟨i, hik⟩
      rw [List.set_cons_succ, List.filter_cons, List.filter_cons]
      by_cases h : notEmptyK hd = true
      · rw [if_pos h, if_pos h]
        by_cases hhd : hd = k
        · subst hhd
          rw [List.erase_cons_head]
          exact ((ih i hik).cons hd).trans
            (List.perm_cons_erase (List.mem_filter.mpr ⟨hmem, hk⟩)).symm
        · rw [List.erase_cons_tail (not_beq_of_ne hhd)]
          exact (ih i hik).cons hd
      · rw [if_neg h, if_neg h]
        exact ih i hik

/-! ### Lookup lemmas -/

theorem ffs_some {k : MgrKey} {l : List StaticEntry} {i : Nat}
    (h : findFirstStatic k l = some i) :
    ∃ e, l[i]? = some e ∧ e.key = k := by
  induction l generalizing i with
  | nil => simp [findFirstStatic] at h
  | cons hd tl ih =>
    rw [findFirstStatic] at h
    split at h
    · cases h
      exact ⟨hd, List.getElem?_cons_zero, by assumption⟩
    · cases hj : findFirstStatic k tl with
      | none => rw [hj] at h; simp at h
      | some j =>
        rw [hj] at h
        simp at h
        subst h
        obtain ⟨e, he, hek⟩ := ih hj
        exact ⟨e, by simpa using he, hek⟩

theorem ffs_some_before {k : MgrKey} {l : List StaticEntry} {i : Nat}
    (h : findFirstStatic k l = some i) :
    ∀ j, j < i → ∀ e, l[j]? = some e → e.key ≠ k := by
  induction l generalizing i with
  | nil => simp [findFirstStatic] at h
  | cons hd tl ih =>
    rw [findFirstStatic] at h
    split at h
    · cases h
      omega
    · cases hj : findFirstStatic k tl with
      | none => rw [hj] at h; simp at h
      | some j' =>
        rw [hj] at h
        simp at h
        subst h
        intro j hlt e he
        cases j with
        | zero =>
          simp only [List.getElem?_cons_zero, Option.some_inj] at he
          subst he
          assumption
        | succ j =>
          exact ih hj j (by omega) e (by simpa using he)

theorem ffs_none {k : MgrKey} {l : List StaticEntry}
    (h : findFirstStatic k l = none) : ∀ e ∈ l, e.key ≠ k := by
  induction l with
  | nil => simp
  | cons hd tl ih =>
    rw [findFirstStatic] at h
    split at h
    · simp at h
    · intro e he
      rcases List.mem_cons.mp he with rfl | he
      · assumption
      · cases hj : findFirstStatic k tl with
        | none => exact ih hj e he
        | some j => rw [hj] at h; simp at h

theorem ffs_of_getElem? {k : MgrKey} {l : List StaticEntry} {i : Nat} {e : StaticEntry}
    (hi : l[i]? = some e) (hk : e.key = k)
    (hbefore : ∀ j, j < i → ∀ e', l[j]? = some e' → e'.key ≠ k) :
    findFirstStatic k l = some i := by
  induction l generalizing i with
  | nil => simp at hi
  | cons hd tl ih =>
    cases i with
    | zero =>
      simp only [List.getElem?_cons_zero, Option.some_inj] at hi
      subst hi
      rw [findFirstStatic, if_pos hk]
    | succ i =>
      rw [findFirstStatic,
        if_neg (hbefore 0 (Nat.succ_pos i) hd List.getElem?_cons_zero)]
      rw [ih (by simpa using hi) fun j hj e' he' =>
        hbefore (j + 1) (by omega) e' (by simpa using he')]
      rfl

theorem ffs_none_of {k : MgrKey} {l : List StaticEntry}
    (h : ∀ e ∈ l, e.key ≠ k) : findFirstStatic k l = none := by
  induction l with
  | nil => rfl
  | cons hd tl ih =>
    rw [findFirstStatic, if_neg (h hd (List.mem_cons_self _ _))]
    rw [ih fun e he => h e (List.mem_cons_of_mem hd he)]
    rfl

theorem ffd_some {k : MgrKey} {l : List DynBuf} {d : DynBuf}
    (h : findFirstDynamic k l = some d) : d ∈ l ∧ d.key = k := by
  induction l with
  | nil => simp [findFirstDynamic] at h
  | cons hd tl ih =>
    rw [findFirstDynamic] at h
    split at h
    · cases h
      exact ⟨List.mem_cons_self _ _, by assumption⟩
    · obtain ⟨hmem, hkey⟩ := ih h
      exact ⟨List.mem_cons_of_mem hd hmem, hkey⟩

theorem ffd_none {k : MgrKey} {l : List DynBuf}
    (h : findFirstDynamic k l = none) : ∀ d ∈ l, d.key ≠ k := by
  induction l with
  | nil => simp
  | cons hd tl ih =>
    rw [findFirstDynamic] at h
    split at h
    · simp at h
    · intro d hd'
      rcases List.mem_cons.mp hd' with rfl | hd'
      · assumption
      · exact ih h d hd'

theorem removeFirst_map_keys (k : MgrKey) (l : List DynBuf) :
    (removeFirstDynamic k l).map (·.key) = (l.map (·.key)).erase k := by
  induction l with
  | nil => rfl
  | cons hd tl ih =>
    rw [removeFirstDynamic]
    by_cases h : hd.key = k
    · rw [if_pos h, List.map_cons, h, List.erase_cons_head]
    · rw [if_neg h, List.map_cons, List.map_cons,
        List.erase_cons_tail (by simpa using h), ih]

theorem removeFirst_sublist (k : MgrKey) (l : List DynBuf) :
    (removeFirstDynamic k l).Sublist l := by
  induction l with
  | nil => exact List.Sublist.refl _
  | cons hd tl ih =>
    rw [removeFirstDynamic]
    split
    · exact List.sublist_cons_self hd tl
    · exact List.Sublist.cons₂ hd ih

/-! ### Migration and the invariant -/

theorem migrate_true_key {sb : StaticEntry} {d : DynBuf}
    (h : (migrateFrom sb d).2 = true) : (migrateFrom sb d).1.key = d.key := by
  unfold migrateFrom at h ⊢
  dsimp only at h ⊢
  split_ifs at h ⊢ <;> simp_all [StaticEntry.resetWith]

theorem migrate_false_key {sb : StaticEntry} {d : DynBuf}
    (h : (migrateFrom sb d).2 = false) :
    (migrateFrom sb d).1 = sb ∨ (migrateFrom sb d).1.key = emptyKey := by
  unfold migrateFrom at h ⊢
  dsimp only at h ⊢
  split_ifs at h ⊢ <;> simp_all [StaticEntry.resetWith]

theorem optLoop_inv (fuel : Nat) :
    ∀ (m : Manager), Inv m →
      Inv (optLoop fuel m) ∧ ∀ x ∈ liveKeys (optLoop fuel m), x ∈ liveKeys m := by
  induction fuel with
  | zero => exact fun m h => ⟨h, fun x hx => hx⟩
  | succ fuel ih =>
    intro m h
    rw [optLoop]
    cases hd : m.dynamics with
    | nil => exact ⟨h, fun x hx => hx⟩
    | cons d rest =>
      cases hf : findFirstStatic emptyKey m.statics with
      | none => exact ⟨h, fun x hx => hx⟩
      | some i =>
        dsimp only
        have hdk : d.key.isEmpty = false := h.2 d (by rw [hd]; exact List.mem_cons_self _ _)
        have hdk' : notEmptyK d.key = true := by simp [notEmptyK, hdk]
        have hfreei : (m.statics.map (·.key))[i]? = some emptyKey := by
          obtain ⟨e, he, hek⟩ := ffs_some hf
          rw [List.getElem?_map, he, Option.map_some', hek]
        by_cases hok : (migrateFrom (m.statics.getD i defaultStatic) d).2 = true
        · rw [if_pos hok]
          have hkey := migrate_true_key hok
          have hperm :
              liveKeys { m with
                statics := m.statics.set i (migrateFrom (m.statics.getD i defaultStatic) d).1
                dynamics := rest
                pool := dynDestroy d m.pool } |>.Perm (liveKeys m) := by
            unfold liveKeys
            dsimp only
            rw [List.map_set, hkey, hd]
            refine List.Perm.trans
              ((filter_set_perm_free _ i d.key hfreei hdk').append_right _) ?_
            rw [List.map_cons]
            exact List.perm_middle.symm
          have hinv' : Inv { m with
              statics := m.statics.set i (migrateFrom (m.statics.getD i defaultStatic) d).1
              dynamics := rest
              pool := dynDestroy d m.pool } := by
            refine ⟨hperm.nodup_iff.mpr h.1, fun d' hd' => ?_⟩
            exact h.2 d' (by rw [hd]; exact List.mem_cons_of_mem d hd')
          obtain ⟨hi1, hi2⟩ := ih _ hinv'
          exact ⟨hi1, fun x hx => hperm.mem_iff.mp (hi2 x hx)⟩
        · rw [if_neg hok]
          have hsub :
              liveKeys { m with
                statics := m.statics.set i
                  ((migrateFrom (m.statics.getD i defaultStatic) d).1.resetWith emptyKey)
                dynamics := d :: rest }
                |>.Sublist (liveKeys m) := by
            unfold liveKeys
            dsimp only
            rw [List.map_set, hd]
            exact (filter_set_empty_sublist _ i).append (List.Sublist.refl _)
          refine ⟨⟨hsub.nodup h.1, fun d' hd' => h.2 d' (by rw [hd]; exact hd')⟩,
            fun x hx => hsub.subset hx⟩

theorem remove_spec (m : Manager) (k : MgrKey) (h : Inv m) :
    Inv (m.remove k) ∧ (∀ x ∈ liveKeys (m.remove k), x ∈ liveKeys m) ∧
      (k.isEmpty = false → k ∉ liveKeys (m.remove k)) := by
  have hnodup : ((m.statics.map (·.key)).filter notEmptyK
      ++ m.dynamics.map (·.key)).Nodup := h.1
  unfold Manager.remove
  cases hf : findFirstStatic k m.statics with
  | some i =>
    dsimp only
    obtain ⟨e, he, hek⟩ := ffs_some hf
    have hmapi : (m.statics.map (·.key))[i]? = some k := by
      rw [List.getElem?_map, he, Option.map_some', hek]
    have hlk : liveKeys { m with
        statics := m.statics.set i ((m.statics.getD i defaultStatic).resetWith emptyKey) }
        = ((m.statics.map (·.key)).set i emptyKey).filter notEmptyK
          ++ m.dynamics.map (·.key) := by
      unfold liveKeys
      dsimp only
      rw [List.map_set]
      rfl
    by_cases hke : k.isEmpty = true
    · -- the matched slot key is erased; a plain sublist argument suffices
      have hsub : (((m.statics.map (·.key)).set i emptyKey).filter notEmptyK
          ++ m.dynamics.map (·.key)).Sublist (liveKeys m) :=
        (filter_set_empty_sublist _ i).append (List.Sublist.refl _)
      have hinv2 : Inv { m with
          statics := m.statics.set i
            ((m.statics.getD i defaultStatic).resetWith emptyKey) } := by
        refine ⟨?_, h.2⟩
        rw [hlk]
        exact hsub.nodup h.1
      unfold optimizeStorage
      obtain ⟨hI, hS⟩ := optLoop_inv _ _ hinv2
      refine ⟨hI, fun x hx => ?_, fun hkf => absurd hke (by rw [hkf]; simp)⟩
      have := hS x hx
      rw [hlk] at this
      exact hsub.subset this
    · have hke' : k.isEmpty = false := by
        cases hkb : k.isEmpty
        · rfl
        · exact absurd hkb hke
      have hk' : notEmptyK k = true := by simp [notEmptyK, hke']
      have hperm : (((m.statics.map (·.key)).set i emptyKey).filter notEmptyK
          ++ m.dynamics.map (·.key)).Perm
          (((m.statics.map (·.key)).filter notEmptyK).erase k
            ++ m.dynamics.map (·.key)) :=
        (filter_set_perm_erase _ i k hmapi hk').append_right _
      have hsub : (((m.statics.map (·.key)).filter notEmptyK).erase k
          ++ m.dynamics.map (·.key)).Sublist (liveKeys m) :=
        (List.erase_sublist k _).append (List.Sublist.refl _)
      have hkmem : k ∈ (m.statics.map (·.key)).filter notEmptyK :=
        List.mem_filter.mpr ⟨List.mem_iff_getElem?.mpr ⟨i, hmapi⟩, hk'⟩
      have hknot : k ∉ ((m.statics.map (·.key)).filter notEmptyK).erase k
          ++ m.dynamics.map (·.key) := by
        intro hx
        rcases List.mem_append.mp hx with hx | hx
        · exact absurd (((List.nodup_append.mp hnodup).1.mem_erase_iff).mp hx).1
            (by simp)
        · exact (List.nodup_append.mp hnodup).2.2 hkmem hx
      have hinv2 : Inv { m with
          statics := m.statics.set i
            ((m.statics.getD i defaultStatic).resetWith emptyKey) } := by
        refine ⟨?_, h.2⟩
        rw [hlk]
        exact hperm.nodup_iff.mpr (hsub.nodup h.1)
      unfold optimizeStorage
      obtain ⟨hI, hS⟩ := optLoop_inv _ _ hinv2
      refine ⟨hI, fun x hx => ?_, fun _ hx => ?_⟩
      · have := hS x hx
        rw [hlk] at this
        exact hsub.subset (hperm.mem_iff.mp this)
      · have := hS k hx
        rw [hlk] at this
        exact hknot (hperm.mem_iff.mp this)
  | none =>
    dsimp only
    cases hfd : findFirstDynamic k m.dynamics with
    | some drem =>
      dsimp only
      have hlk : liveKeys { m with
          dynamics := removeFirstDynamic k m.dynamics,
          pool := dynDestroy drem m.pool }
          = (m.statics.map (·.key)).filter notEmptyK
            ++ (m.dynamics.map (·.key)).erase k := by
        unfold liveKeys
        dsimp only
        rw [removeFirst_map_keys]
      have hsub : ((m.statics.map (·.key)).filter notEmptyK
          ++ (m.dynamics.map (·.key)).erase k).Sublist (liveKeys m) :=
        (List.Sublist.refl _).append (List.erase_sublist k _)
      refine ⟨⟨by rw [hlk]; exact hsub.nodup h.1, fun d' hd' => ?_⟩,
        fun x hx => ?_, fun hkf hx => ?_⟩
      · exact h.2 d' ((removeFirst_sublist k m.dynamics).subset hd')
      · rw [hlk] at hx
        exact hsub.subset hx
      · rw [hlk] at hx
        rcases List.mem_append.mp hx with hx | hx
        · obtain ⟨hmem, -⟩ := List.mem_filter.mp hx
          obtain ⟨e', he', hek'⟩ := List.mem_map.mp hmem
          exact ffs_none hf e' he' hek'
        · exact absurd (((List.nodup_append.mp hnodup).2.1.mem_erase_iff).mp hx).1
            (by simp)
    | none =>
      dsimp only
      refine ⟨h, fun x hx => hx, fun hkf hx => ?_⟩
      rcases List.mem_append.mp hx with hx | hx
      · obtain ⟨hmem, -⟩ := List.mem_filter.mp hx
        obtain ⟨e', he', hek'⟩ := List.mem_map.mp hmem
        exact ffs_none hf e' he' hek'
      · obtain ⟨d', hd', hdk'⟩ := List.mem_map.mp hx
        exact ffd_none hfd d' hd' hdk'

theorem create_inv (m : Manager) (k : MgrKey) (h : Inv m) :
    Inv (m.create k).1 := by
  unfold Manager.create
  by_cases hke : k.isEmpty = true
  · rw [if_pos hke]
    exact h
  · rw [if_neg hke]
    dsimp only
    have hke' : k.isEmpty = false := by
      cases hkb : k.isEmpty
      · rfl
      · exact absurd hkb hke
    have hk' : notEmptyK k = true := by simp [notEmptyK, hke']
    obtain ⟨h1, hsub1, hnot1⟩ := remove_spec m k h
    have hnotk : k ∉ liveKeys (m.remove k) := hnot1 hke'
    generalize hm1 : m.remove k = m1 at h1 hnotk ⊢
    cases hf : findFirstStatic emptyKey m1.statics with
    | some i =>
      dsimp only
      obtain ⟨e, he, hek⟩ := ffs_some hf
      have hmapi : (m1.statics.map (·.key))[i]? = some emptyKey := by
        rw [List.getElem?_map, he, Option.map_some', hek]
      have hperm : liveKeys { m1 with
          statics := m1.statics.set i
            ((m1.statics.getD i defaultStatic).resetWith k) }
          |>.Perm (k :: liveKeys m1) := by
        unfold liveKeys
        dsimp only
        rw [List.map_set]
        exact (filter_set_perm_free _ i k hmapi hk').append_right _
      exact ⟨hperm.nodup_iff.mpr (List.nodup_cons.mpr ⟨hnotk, h1.1⟩), h1.2⟩
    | none =>
      dsimp only
      unfold dynInstantiate
      by_cases hp : m1.pool = 0
      · rw [if_pos hp]
        exact h1
      · rw [if_neg hp]
        dsimp only
        constructor
        · show (((m1.statics.map (·.key)).filter notEmptyK)
            ++ k :: m1.dynamics.map (·.key)).Nodup
          refine List.perm_middle.nodup_iff.mpr (List.nodup_cons.mpr ⟨hnotk, h1.1⟩)
        · intro d' hd'
          rcases List.mem_cons.mp hd' with rfl | hd'
          · exact hke'
          · exact h1.2 d' hd'

theorem init_inv (cap n bs pool : Nat) : Inv (Manager.init cap n bs pool) := by
  constructor
  · have h : liveKeys (Manager.init cap n bs pool) = [] := by
      unfold liveKeys Manager.init
      simp only [List.map_replicate, List.map_nil, List.append_nil]
      rw [List.filter_eq_nil_iff]
      intro a ha
      rw [List.eq_of_mem_replicate ha]
      simp [notEmptyK, MgrKey.isEmpty, emptyKey]
    rw [h]
    exact List.nodup_nil
  · intro d hd
    simp [Manager.init] at hd

theorem runOps_inv (ops : List MgrOp) (m : Manager) (h : Inv m) :
    Inv (runOps m ops) := by
  induction ops generalizing m with
  | nil => exact h
  | cons op rest ih =>
    cases op with
    | cre k => exact ih _ (create_inv m k h)
    | rem k => exact ih _ (remove_spec m k h).1

/-! ## Claim C1: key uniqueness across create/remove sequences -/

/-- C1: for every sequence of `create`/`remove` calls with non-empty keys,
applied to a freshly constructed manager, the live entries (non-empty-keyed
static slots and dynamic entries) hold pairwise distinct keys — at most one
live entry per non-empty key — and every dynamic entry's key is non-empty.
Since every prefix of such a sequence is itself such a sequence, this holds at
every intermediate time as well. -/
theorem c1_key_uniqueness (cap n bs pool : Nat) (ops : List MgrOp)
    (hops : ∀ op ∈ ops, op.key.isEmpty = false) :
    (liveKeys (runOps (Manager.init cap n bs pool) ops)).Nodup ∧
      ∀ d ∈ (runOps (Manager.init cap n bs pool) ops).dynamics,
        d.key.isEmpty = false :=
  runOps_inv ops _ (init_inv cap n bs pool)

/-- Witness for C1: a concrete sequence that exercises static creation,
dynamic overflow, removal and re-creation on a manager with 2 static slots. -/
theorem c1_key_uniqueness_witness :
    (liveKeys (runOps (Manager.init 4 2 8 3)
      [MgrOp.cre ⟨1, 0⟩, MgrOp.cre ⟨2, 1⟩, MgrOp.cre ⟨3, 0⟩,
       MgrOp.rem ⟨1, 0⟩, MgrOp.cre ⟨2, 1⟩, MgrOp.cre ⟨4, 2⟩])).Nodup ∧
      ∀ d ∈ (runOps (Manager.init 4 2 8 3)
        [MgrOp.cre ⟨1, 0⟩, MgrOp.cre ⟨2, 1⟩, MgrOp.cre ⟨3, 0⟩,
         MgrOp.rem ⟨1, 0⟩, MgrOp.cre ⟨2, 1⟩, MgrOp.cre ⟨4, 2⟩]).dynamics,
        d.key.isEmpty = false :=
  c1_key_uniqueness 4 2 8 3 _ (by decide)

/-! ### Characterizing `create`, `access`, `remove` -/

theorem ffd_none_of {k : MgrKey} {l : List DynBuf}
    (h : ∀ d ∈ l, d.key ≠ k) : findFirstDynamic k l = none := by
  induction l with
  | nil => rfl
  | cons hd tl ih =>
    rw [findFirstDynamic, if_neg (h hd (List.mem_cons_self _ _))]
    exact ih fun d hd' => h d (List.mem_cons_of_mem hd hd')

theorem optLoop_config (fuel : Nat) :
    ∀ m : Manager, (optLoop fuel m).maxBufSize = m.maxBufSize
      ∧ (optLoop fuel m).blockSize = m.blockSize := by
  induction fuel with
  | zero => exact fun m => ⟨rfl, rfl⟩
  | succ fuel ih =>
    intro m
    rw [optLoop]
    cases m.dynamics with
    | nil => exact ⟨rfl, rfl⟩
    | cons d rest =>
      cases findFirstStatic emptyKey m.statics with
      | none => exact ⟨rfl, rfl⟩
      | some i =>
        dsimp only
        split
        · exact ih _
        · exact ⟨rfl, rfl⟩

theorem remove_config (m : Manager) (k : MgrKey) :
    (m.remove k).maxBufSize = m.maxBufSize
      ∧ (m.remove k).blockSize = m.blockSize := by
  unfold Manager.remove
  cases findFirstStatic k m.statics with
  | some i => exact optLoop_config _ _
  | none =>
    dsimp only
    cases findFirstDynamic k m.dynamics with
    | some d => exact ⟨rfl, rfl⟩
    | none => exact ⟨rfl, rfl⟩

theorem create_cases (m : Manager) (k : MgrKey) (hke : k.isEmpty = false) :
    (∃ i, findFirstStatic emptyKey (m.remove k).statics = some i ∧
      m.create k = ({ m.remove k with statics := (m.remove k).statics.set i (((m.remove k).statics.getD i defaultStatic).resetWith k) }, true)) ∨
    (findFirstStatic emptyKey (m.remove k).statics = none ∧ (m.remove k).pool = 0 ∧
      m.create k = (m.remove k, false)) ∨
    (findFirstStatic emptyKey (m.remove k).statics = none ∧ 0 < (m.remove k).pool ∧
      m.create k = ({ m.remove k with dynamics := ⟨k, (m.remove k).maxBufSize, 0, 0, []⟩ :: (m.remove k).dynamics, pool := (m.remove k).pool - 1 }, true)) := by
  unfold Manager.create
  rw [if_neg (by simp [hke])]
  dsimp only
  generalize m.remove k = m1
  cases hf : findFirstStatic emptyKey m1.statics with
  | some i =>
    dsimp only
    exact Or.inl ⟨i, rfl, rfl⟩
  | none =>
    dsimp only
    unfold dynInstantiate
    by_cases hp : m1.pool = 0
    · rw [if_pos hp]
      exact Or.inr (Or.inl ⟨rfl, hp, rfl⟩)
    · rw [if_neg hp]
      exact Or.inr (Or.inr ⟨rfl, Nat.pos_of_ne_zero hp, rfl⟩)

theorem access_none_of_not_live (m : Manager) (k : MgrKey)
    (hke : k.isEmpty = false) (h : k ∉ liveKeys m) : m.access k = none := by
  have hk' : notEmptyK k = true := by simp [notEmptyK, hke]
  unfold Manager.access
  rw [if_neg (by simp [hke])]
  have hs : findFirstStatic k m.statics = none := by
    refine ffs_none_of fun e he hek => h ?_
    exact List.mem_append_left _
      (List.mem_filter.mpr ⟨List.mem_map.mpr ⟨e, he, hek⟩, hk'⟩)
  rw [hs]
  have hd : findFirstDynamic k m.dynamics = none := by
    refine ffd_none_of fun d hd' hdk => h ?_
    exact List.mem_append_right _ (List.mem_map.mpr ⟨d, hd', hdk⟩)
  rw [hd]
  rfl

theorem access_none_elim {m : Manager} {k : MgrKey}
    (hke : k.isEmpty = false) (h : m.access k = none) :
    findFirstStatic k m.statics = none ∧ findFirstDynamic k m.dynamics = none := by
  unfold Manager.access at h
  rw [if_neg (by simp [hke])] at h
  cases hf : findFirstStatic k m.statics with
  | some i => rw [hf] at h; simp at h
  | none =>
    rw [hf] at h
    cases hfd : findFirstDynamic k m.dynamics with
    | some d => rw [hfd] at h; simp at h
    | none => exact ⟨rfl, rfl⟩

theorem remove_eq_self_of_absent {m : Manager} {k : MgrKey}
    (hs : findFirstStatic k m.statics = none)
    (hd : findFirstDynamic k m.dynamics = none) : m.remove k = m := by
  unfold Manager.remove
  rw [hs, hd]

/-! ## Claim C7: create removes first and strictly prefers static slots -/

/-- C7: `create(key)` with a non-empty key first removes any pre-existing
entry for `key`; if after that removal some static slot is free (its key equals
the empty sentinel), `create` activates the first such slot with `key` (leaving
the dynamic list and the pool untouched); only when no static slot is free
does it allocate a Dynamic Buffer with capacity equal to the configured
maximum buffer size and link it at the head of the dynamic list. -/
theorem c7_create_prefers_static (m : Manager) (k : MgrKey)
    (hke : k.isEmpty = false) :
    (∀ i, findFirstStatic emptyKey (m.remove k).statics = some i →
      m.create k = ({ m.remove k with statics := (m.remove k).statics.set i (((m.remove k).statics.getD i defaultStatic).resetWith k) }, true)) ∧
    (findFirstStatic emptyKey (m.remove k).statics = none → 0 < (m.remove k).pool →
      m.create k = ({ m.remove k with dynamics := ⟨k, m.maxBufSize, 0, 0, []⟩ :: (m.remove k).dynamics, pool := (m.remove k).pool - 1 }, true)) := by
  rcases create_cases m k hke with ⟨i, hf, heq⟩ | ⟨hf, hp, heq⟩ | ⟨hf, hp, heq⟩
  · constructor
    · intro j hj
      rw [hf] at hj
      cases hj
      exact heq
    · intro hj
      rw [hf] at hj
      cases hj
  · constructor
    · intro j hj
      rw [hf] at hj
      cases hj
    · intro _ hp'
      omega
  · constructor
    · intro j hj
      rw [hf] at hj
      cases hj
    · intro _ _
      rw [heq, (remove_config m k).1]

/-- Witness for C7: on a fresh manager with 2 static slots, `create` claims
slot 0. -/
theorem c7_create_prefers_static_witness :
    (Manager.init 4 2 8 3).create ⟨1, 0⟩
      = ({ (Manager.init 4 2 8 3).remove ⟨1, 0⟩ with statics := ((Manager.init 4 2 8 3).remove ⟨1, 0⟩).statics.set 0 ((((Manager.init 4 2 8 3).remove ⟨1, 0⟩).statics.getD 0 defaultStatic).resetWith ⟨1, 0⟩) }, true) :=
  (c7_create_prefers_static (Manager.init 4 2 8 3) ⟨1, 0⟩ (by decide)).1 0 (by decide)

/-! ## Claim C9: create-failure is not atomic w.r.t. a pre-existing entry -/

/-- C9: with a non-empty key `k`, `create(k)` removes any pre-existing entry
for `k` before attempting any allocation: whenever `create(k)` fails (returns
null), the resulting manager state is exactly `remove(k)`'s — the pre-existing
entry and its contents are gone — and a subsequent `access(k)` returns null. -/
theorem c9_create_failure_not_atomic (m : Manager) (k : MgrKey) (hinv : Inv m)
    (hke : k.isEmpty = false) (hfail : (m.create k).2 = false) :
    (m.create k).1 = m.remove k ∧ (m.create k).1.access k = none := by
  rcases create_cases m k hke with ⟨i, hf, heq⟩ | ⟨hf, hp, heq⟩ | ⟨hf, hp, heq⟩
  · rw [heq] at hfail
    simp at hfail
  · rw [heq]
    exact ⟨rfl, access_none_of_not_live _ k hke ((remove_spec m k hinv).2.2 hke)⟩
  · rw [heq] at hfail
    simp at hfail

/-- Witness for C9: one occupied static slot (key (5,0)), empty pool;
`create((1,0))` fails and `access((1,0))` on the result is null. -/
theorem c9_create_failure_not_atomic_witness :
    ((⟨2, 8, [⟨⟨5, 0⟩, ⟨[0, 0], 0⟩⟩], [], 0⟩ : Manager).create ⟨1, 0⟩).1
        = (⟨2, 8, [⟨⟨5, 0⟩, ⟨[0, 0], 0⟩⟩], [], 0⟩ : Manager).remove ⟨1, 0⟩ ∧
      ((⟨2, 8, [⟨⟨5, 0⟩, ⟨[0, 0], 0⟩⟩], [], 0⟩ : Manager).create
        ⟨1, 0⟩).1.access ⟨1, 0⟩ = none :=
  c9_create_failure_not_atomic ⟨2, 8, [⟨⟨5, 0⟩, ⟨[0, 0], 0⟩⟩], [], 0⟩ ⟨1, 0⟩
    (by decide) (by decide) (by decide)

/-! ## Claim C4: resource exhaustion -/

/-- Counterexample to C4 as stated: no static slot is free (the single slot is
occupied, by key (1,0) itself), the pool has no free block, yet
`create((1,0))` does NOT fail — it first removes the pre-existing entry, which
frees the static slot, and then claims that slot, returning a valid handle. -/
theorem c4_counterexample :
    findFirstStatic emptyKey
        (⟨2, 8, [⟨⟨1, 0⟩, ⟨[7, 7], 2⟩⟩], [], 0⟩ : Manager).statics = none ∧
      (⟨2, 8, [⟨⟨1, 0⟩, ⟨[7, 7], 2⟩⟩], [], 0⟩ : Manager).pool = 0 ∧
      (⟨1, 0⟩ : MgrKey).isEmpty = false ∧
      ((⟨2, 8, [⟨⟨1, 0⟩, ⟨[7, 7], 2⟩⟩], [], 0⟩ : Manager).create ⟨1, 0⟩).2
        = true := by
  refine ⟨by decide, by decide, by decide, by decide⟩

/-- C4 (amended): when no static slot is free, the pool allocator has no free
block, and additionally no entry currently exists under the (non-empty) key,
`create(key)` returns a failure indicator, no partial object is left
registered under the key, and the manager state is left unchanged — in
particular a subsequent `access` of that key returns null. -/
theorem c4_exhaustion (m : Manager) (k : MgrKey) (hke : k.isEmpty = false)
    (hnostat : findFirstStatic emptyKey m.statics = none)
    (hpool : m.pool = 0) (hnoentry : m.access k = none) :
    m.create k = (m, false) ∧ (m.create k).1.access k = none := by
  obtain ⟨hs, hd⟩ := access_none_elim hke hnoentry
  have hrm : m.remove k = m := remove_eq_self_of_absent hs hd
  rcases create_cases m k hke with ⟨i, hf, heq⟩ | ⟨hf, hp, heq⟩ | ⟨hf, hp, heq⟩
  · rw [hrm, hnostat] at hf
    cases hf
  · rw [hrm] at heq
    rw [heq]
    exact ⟨rfl, hnoentry⟩
  · rw [hrm] at hp
    omega

/-- Witness for C4 (amended): one occupied slot (key (5,0)), empty pool, no
entry under (1,0). -/
theorem c4_exhaustion_witness :
    (⟨2, 8, [⟨⟨5, 0⟩, ⟨[0, 0], 0⟩⟩], [], 0⟩ : Manager).create ⟨1, 0⟩
        = (⟨2, 8, [⟨⟨5, 0⟩, ⟨[0, 0], 0⟩⟩], [], 0⟩, false) ∧
      ((⟨2, 8, [⟨⟨5, 0⟩, ⟨[0, 0], 0⟩⟩], [], 0⟩ : Manager).create
        ⟨1, 0⟩).1.access ⟨1, 0⟩ = none :=
  c4_exhaustion ⟨2, 8, [⟨⟨5, 0⟩, ⟨[0, 0], 0⟩⟩], [], 0⟩ ⟨1, 0⟩
    (by decide) (by decide) (by decide) (by decide)

/-! ### Computing reads and migration -/

theorem dynRead_beyond (d : DynBuf) (off len : Nat) (h : d.maxWritePos ≤ off) :
    d.read off len = [] := by
  unfold DynBuf.read
  rw [if_pos h]

theorem dynRead_zero_full (d : DynBuf) (C : Nat) (hfit : d.maxWritePos ≤ C) :
    d.read 0 C = d.data.take d.maxWritePos := by
  unfold DynBuf.read
  by_cases h0 : d.maxWritePos = 0
  · rw [if_pos (by omega), h0, List.take_zero]
  · rw [if_neg (by omega)]
    dsimp only
    rw [List.drop_zero]
    by_cases hgt : 0 + C > d.maxWritePos
    · rw [if_pos hgt, Nat.sub_zero]
    · rw [if_neg hgt]
      have hC : C = d.maxWritePos := by omega
      rw [hC]

theorem dynRead_zero_trunc (d : DynBuf) (C : Nat) (hlt : C < d.maxWritePos)
    (hC : 0 < C) : d.read 0 C = d.data.take C := by
  unfold DynBuf.read
  rw [if_neg (by omega)]
  dsimp only
  rw [if_neg (by omega), List.drop_zero]

theorem dynRead_probe (d : DynBuf) (C : Nat) (hlt : C < d.maxWritePos)
    (hwf : d.maxWritePos ≤ d.data.length) : 0 < (d.read C 1).length := by
  unfold DynBuf.read
  rw [if_neg (by omega)]
  dsimp only
  rw [if_neg (by omega)]
  simp only [List.length_take, List.length_drop]
  omega

theorem migrateFrom_success (sb : StaticEntry) (d : DynBuf)
    (hk : d.key.isEmpty = false)
    (hfit : d.maxWritePos ≤ sb.buf.data.length)
    (hwf : d.maxWritePos ≤ d.data.length) :
    migrateFrom sb d
      = (⟨d.key, ⟨listWrite sb.buf.data 0 (d.data.take d.maxWritePos),
          d.maxWritePos⟩⟩, true) := by
  unfold migrateFrom
  rw [if_neg (by simp [hk])]
  dsimp only
  rw [dynRead_zero_full d sb.buf.data.length hfit]
  have hlen : (d.data.take d.maxWritePos).length = d.maxWritePos := by
    rw [List.length_take]
    omega
  rw [hlen]
  by_cases hlt : d.maxWritePos < sb.buf.data.length
  · rw [if_pos hlt]
  · rw [if_neg hlt]
    rw [dynRead_beyond d sb.buf.data.length 1 (by omega)]
    rw [if_neg (by simp)]

theorem dynRead_len_zero (d : DynBuf) (off : Nat) : d.read off 0 = [] := by
  unfold DynBuf.read
  by_cases h : off ≥ d.maxWritePos
  · rw [if_pos h]
  · rw [if_neg h]
    dsimp only
    rw [if_neg (by omega), List.take_zero]

theorem migrateFrom_oversized (sb : StaticEntry) (d : DynBuf)
    (hk : d.key.isEmpty = false)
    (hbig : sb.buf.data.length < d.maxWritePos)
    (hwf : d.maxWritePos ≤ d.data.length) :
    (migrateFrom sb d).2 = false := by
  unfold migrateFrom
  rw [if_neg (by simp [hk])]
  dsimp only
  by_cases hC : 0 < sb.buf.data.length
  · rw [dynRead_zero_trunc d sb.buf.data.length hbig hC]
    have hlen : (d.data.take sb.buf.data.length).length = sb.buf.data.length := by
      rw [List.length_take]
      omega
    rw [hlen, if_neg (by omega)]
    rw [if_pos (dynRead_probe d sb.buf.data.length hbig hwf)]
  · have hC0 : sb.buf.data.length = 0 := by omega
    rw [hC0, dynRead_len_zero d 0]
    rw [if_neg (by simp)]
    rw [if_pos (dynRead_probe d 0 (by omega) hwf)]

theorem optLoop_stuck (f : Nat) (m : Manager)
    (hfs : findFirstStatic emptyKey m.statics = none) : optLoop f m = m := by
  cases f with
  | zero => rfl
  | succ f =>
    rw [optLoop]
    cases m.dynamics with
    | nil => rfl
    | cons d rest => rw [hfs]

/-! ## Claim C8: migration failure is contained -/

/-- C8: if during storage optimization the first dynamic entry's content is
too large for the static capacity (its high-water mark exceeds the free static
slot's array size), the migration fails: optimization stops for this pass, the
dynamic list is left entirely unchanged (the oversized entry keeps its key and
content), the pool is untouched, every other static slot is untouched, and the
target slot is left free (empty key). -/
theorem c8_migration_failure (m : Manager) (d : DynBuf) (rest : List DynBuf)
    (i : Nat) (hdyn : m.dynamics = d :: rest)
    (hfs : findFirstStatic emptyKey m.statics = some i)
    (hk : d.key.isEmpty = false)
    (hbig : (m.statics.getD i defaultStatic).buf.data.length < d.maxWritePos)
    (hwf : d.maxWritePos ≤ d.data.length) :
    (optimizeStorage m).dynamics = m.dynamics ∧
      (optimizeStorage m).pool = m.pool ∧
      (∀ j, j ≠ i → (optimizeStorage m).statics[j]? = m.statics[j]?) ∧
      ((optimizeStorage m).statics.getD i defaultStatic).key = emptyKey := by
  obtain ⟨mbs, bs, st, dyn, pl⟩ := m
  dsimp only at hdyn hfs hbig ⊢
  subst hdyn
  unfold optimizeStorage
  dsimp only
  rw [List.length_cons, optLoop]
  dsimp only
  rw [hfs]
  dsimp only
  have hfail := migrateFrom_oversized (st.getD i defaultStatic) d hk hbig hwf
  rw [if_neg (by rw [hfail]; simp)]
  have hilen : i < st.length := by
    obtain ⟨e, he, -⟩ := ffs_some hfs
    exact (List.getElem?_eq_some_iff.mp he).1
  refine ⟨rfl, rfl, fun j hj => ?_, ?_⟩
  · exact List.getElem?_set_ne (fun he => hj he.symm)
  · dsimp only
    rw [List.getD_eq_getElem?_getD, List.getElem?_set_eq_of_lt _ hilen]
    rfl

/-- Witness for C8: capacity-2 free slot, 3 bytes in the dynamic entry. -/
theorem c8_migration_failure_witness :
    (optimizeStorage (⟨2, 8, [⟨emptyKey, ⟨[0, 0], 0⟩⟩],
        [⟨⟨1, 0⟩, 2, 3, 1, [7, 7, 7]⟩], 5⟩ : Manager)).dynamics
      = (⟨2, 8, [⟨emptyKey, ⟨[0, 0], 0⟩⟩],
        [⟨⟨1, 0⟩, 2, 3, 1, [7, 7, 7]⟩], 5⟩ : Manager).dynamics ∧
    (optimizeStorage (⟨2, 8, [⟨emptyKey, ⟨[0, 0], 0⟩⟩],
        [⟨⟨1, 0⟩, 2, 3, 1, [7, 7, 7]⟩], 5⟩ : Manager)).pool
      = (⟨2, 8, [⟨emptyKey, ⟨[0, 0], 0⟩⟩],
        [⟨⟨1, 0⟩, 2, 3, 1, [7, 7, 7]⟩], 5⟩ : Manager).pool ∧
    ((optimizeStorage (⟨2, 8, [⟨emptyKey, ⟨[0, 0], 0⟩⟩],
        [⟨⟨1, 0⟩, 2, 3, 1, [7, 7, 7]⟩], 5⟩ : Manager)).statics.getD 0
          defaultStatic).key = emptyKey := by
  have h := c8_migration_failure
    ⟨2, 8, [⟨emptyKey, ⟨[0, 0], 0⟩⟩], [⟨⟨1, 0⟩, 2, 3, 1, [7, 7, 7]⟩], 5⟩
    ⟨⟨1, 0⟩, 2, 3, 1, [7, 7, 7]⟩ [] 0 rfl (by decide) (by decide) (by decide)
    (by decide)
  exact ⟨h.1, h.2.1, h.2.2.2⟩

/-! ## Claim C10: a failed migration never duplicates keys -/

/-- Counterexample to C10 as stated: `migrateFrom` invoked on a target slot
currently holding key (1,0) with an empty-keyed source fails via the initial
source check and returns with the target entirely untouched — its key is NOT
restored to the sentinel. -/
theorem c10_counterexample :
    (migrateFrom ⟨⟨1, 0⟩, ⟨[0, 0], 0⟩⟩ ⟨emptyKey, 4, 0, 0, []⟩).2 = false ∧
      ¬((migrateFrom ⟨⟨1, 0⟩, ⟨[0, 0], 0⟩⟩
          ⟨emptyKey, 4, 0, 0, []⟩).1.key = emptyKey) := by
  refine ⟨by decide, by decide⟩

/-- C10 (amended): whenever `migrateFrom` fails on a target slot whose key is
the empty sentinel — as is always the case in `optimizeStorage`, whose target
is a free slot — the target static entry is left empty: the empty-source
failure path leaves it untouched (hence still empty), and the
content-too-large failure path resets it to the sentinel; the failure branch
of `optimizeStorage` additionally resets that slot before stopping.
Consequently a failed migration never leaves a static slot holding the dynamic
entry's key, and storage optimization always preserves the manager invariant:
no two live entries with equal keys. -/
theorem c10_failed_migration_leaves_empty :
    (∀ (sb : StaticEntry) (d : DynBuf), sb.key = emptyKey →
      (migrateFrom sb d).2 = false → (migrateFrom sb d).1.key = emptyKey) ∧
    (∀ m : Manager, Inv m → Inv (optimizeStorage m)) := by
  constructor
  · intro sb d hsb hfail
    rcases migrate_false_key hfail with h | h
    · rw [h]
      exact hsb
    · exact h
  · intro m hm
    exact (optLoop_inv _ m hm).1

/-- Witness for C10 (amended): an empty-source failure on a free slot, and
invariant preservation across a failing optimization pass. -/
theorem c10_failed_migration_leaves_empty_witness :
    (migrateFrom ⟨emptyKey, ⟨[0, 0], 0⟩⟩ ⟨emptyKey, 4, 0, 0, []⟩).1.key
        = emptyKey ∧
      Inv (optimizeStorage (⟨2, 8, [⟨emptyKey, ⟨[0, 0], 0⟩⟩],
        [⟨⟨1, 0⟩, 2, 3, 1, [7, 7, 7]⟩], 5⟩ : Manager)) :=
  ⟨c10_failed_migration_leaves_empty.1 ⟨emptyKey, ⟨[0, 0], 0⟩⟩
      ⟨emptyKey, 4, 0, 0, []⟩ rfl (by decide),
   c10_failed_migration_leaves_empty.2
      ⟨2, 8, [⟨emptyKey, ⟨[0, 0], 0⟩⟩], [⟨⟨1, 0⟩, 2, 3, 1, [7, 7, 7]⟩], 5⟩
      (by decide)⟩

/-! ### Read agreement after migration -/

theorem drop_take_of_take_eq {l1 l2 : List Nat} {n : Nat}
    (h : l1.take n = l2.take n) (off len : Nat) (hle : off + len ≤ n) :
    (l1.drop off).take len = (l2.drop off).take len := by
  have h1 : ∀ l : List Nat, ((l.take n).drop off).take len = (l.drop off).take len := by
    intro l
    rw [List.drop_take, List.take_take]
    congr 1
    omega
  rw [← h1 l1, ← h1 l2, h]

theorem staticRead_eq_dynRead (s : StaticBuffer) (d : DynBuf)
    (hm : s.maxWritePos = d.maxWritePos)
    (hdata : s.data.take d.maxWritePos = d.data.take d.maxWritePos) :
    ∀ off len, s.read off len = d.read off len := by
  intro off len
  unfold StaticBuffer.read DynBuf.read
  rw [hm]
  by_cases h : off ≥ d.maxWritePos
  · rw [if_pos h, if_pos h]
  · rw [if_neg h, if_neg h]
    dsimp only
    by_cases hgt : off + len > d.maxWritePos
    · rw [if_pos hgt]
      exact drop_take_of_take_eq hdata off _ (by omega)
    · rw [if_neg hgt]
      exact drop_take_of_take_eq hdata off len (by omega)

theorem key_ne_empty_of_isEmpty_false {k : MgrKey} (h : k.isEmpty = false) :
    k ≠ emptyKey := by
  intro hk
  rw [hk] at h
  cases h

theorem static_ne_dyn_key {m : Manager} (hinv : Inv m) {d : DynBuf}
    (hd : d ∈ m.dynamics) : ∀ e ∈ m.statics, e.key ≠ d.key := by
  intro e he hek
  have hdk : d.key.isEmpty = false := hinv.2 d hd
  have h1 : d.key ∈ (m.statics.map (·.key)).filter notEmptyK :=
    List.mem_filter.mpr ⟨List.mem_map.mpr ⟨e, he, hek⟩, by simp [notEmptyK, hdk]⟩
  have h2 : d.key ∈ m.dynamics.map (·.key) := List.mem_map.mpr ⟨d, hd, rfl⟩
  exact (List.nodup_append.mp hinv.1).2.2 h1 h2

/-! ## Claim C2: migration correctness -/

/-- C2: given a manager whose static slot `i` holds key `k2` while every other
slot is occupied, and whose dynamic list starts with an entry `d` whose content
fits within the static capacity, `remove(k2)` triggers migration: afterwards
the dynamic entry no longer exists in the dynamic list, its node's block and
its chain blocks are returned to the pool, and `access(d.key)` reaches a
static entry whose readable content is byte-for-byte identical to the dynamic
entry's pre-migration content (every `read(off, len)` agrees). -/
theorem c2_migration (m : Manager) (k2 : MgrKey) (i : Nat) (d : DynBuf)
    (rest : List DynBuf)
    (hinv : Inv m)
    (hdyn : m.dynamics = d :: rest)
    (hfs : findFirstStatic k2 m.statics = some i)
    (hother : ∀ j, j < m.statics.length → j ≠ i →
      (m.statics.getD j defaultStatic).key ≠ emptyKey)
    (hfit : d.maxWritePos ≤ (m.statics.getD i defaultStatic).buf.data.length)
    (hwf : d.maxWritePos ≤ d.data.length) :
    (m.remove k2).dynamics = rest ∧
      (m.remove k2).pool = m.pool + 1 + d.numBlocks ∧
      ∀ off len, (m.remove k2).accessRead d.key off len
        = some (d.read off len) := by
  have hdk : d.key.isEmpty = false := hinv.2 d (by rw [hdyn]; exact List.mem_cons_self _ _)
  have hstat_ne : ∀ e ∈ m.statics, e.key ≠ d.key :=
    static_ne_dyn_key hinv (by rw [hdyn]; exact List.mem_cons_self _ _)
  obtain ⟨e0, he0, hek0⟩ := ffs_some hfs
  obtain ⟨mbs, bs, st, dyn, pl⟩ := m
  dsimp only at hdyn hfs hother hfit he0 hstat_ne ⊢
  subst hdyn
  have hilen : i < st.length := (List.getElem?_eq_some_iff.mp he0).1
  have hgd0 : st.getD i defaultStatic = e0 := by
    rw [List.getD_eq_getElem?_getD, he0]
    rfl
  unfold Manager.remove
  dsimp only
  rw [hfs]
  dsimp only
  have hfs2 : findFirstStatic emptyKey
      (st.set i ((st.getD i defaultStatic).resetWith emptyKey)) = some i := by
    refine ffs_of_getElem? (List.getElem?_set_eq_of_lt _ hilen) rfl ?_
    intro j hj e' he' hke'
    rw [List.getElem?_set_ne (by omega)] at he'
    have hjlen : j < st.length := (List.getElem?_eq_some_iff.mp he').1
    refine hother j hjlen (by omega) ?_
    rw [List.getD_eq_getElem?_getD, he']
    exact hke'
  unfold optimizeStorage
  dsimp only
  rw [List.length_cons, optLoop]
  dsimp only
  rw [hfs2]
  dsimp only
  have hgd1 : (st.set i ((st.getD i defaultStatic).resetWith emptyKey)).getD i
      defaultStatic = (st.getD i defaultStatic).resetWith emptyKey := by
    rw [List.getD_eq_getElem?_getD, List.getElem?_set_eq_of_lt _ hilen]
    rfl
  rw [hgd1]
  have hmig := migrateFrom_success ((st.getD i defaultStatic).resetWith emptyKey)
    d hdk (by exact hfit) hwf
  rw [hmig]
  rw [if_pos rfl]
  rw [List.set_set]
  have hbytes_len : (d.data.take d.maxWritePos).length = d.maxWritePos := by
    rw [List.length_take]
    omega
  have hfs3 : findFirstStatic emptyKey
      (st.set i ⟨d.key, ⟨listWrite ((st.getD i defaultStatic).resetWith
        emptyKey).buf.data 0 (d.data.take d.maxWritePos), d.maxWritePos⟩⟩)
      = none := by
    refine ffs_none_of fun e he => ?_
    obtain ⟨j, hje⟩ := List.mem_iff_getElem?.mp he
    have hjlen : j < st.length := by
      have := (List.getElem?_eq_some_iff.mp hje).1
      rw [List.length_set] at this
      exact this
    by_cases hji : j = i
    · subst hji
      rw [List.getElem?_set_eq_of_lt _ hilen] at hje
      cases hje
      exact key_ne_empty_of_isEmpty_false hdk
    · rw [List.getElem?_set_ne (fun hh => hji hh.symm)] at hje
      have := hother j hjlen hji
      rw [List.getD_eq_getElem?_getD, hje] at this
      exact this
  rw [optLoop_stuck _ _ hfs3]
  refine ⟨rfl, rfl, fun off len => ?_⟩
  unfold Manager.accessRead Manager.access
  rw [if_neg (by simp [hdk])]
  dsimp only
  have hfsd : findFirstStatic d.key
      (st.set i ⟨d.key, ⟨listWrite ((st.getD i defaultStatic).resetWith
        emptyKey).buf.data 0 (d.data.take d.maxWritePos), d.maxWritePos⟩⟩)
      = some i := by
    refine ffs_of_getElem? (List.getElem?_set_eq_of_lt _ hilen) rfl ?_
    intro j hj e' he' hke'
    rw [List.getElem?_set_ne (by omega)] at he'
    exact hstat_ne e' (List.mem_iff_getElem?.mpr ⟨j, he'⟩) hke'
  rw [hfsd]
  dsimp only
  have hgd2 : (st.set i ⟨d.key, ⟨listWrite ((st.getD i defaultStatic).resetWith
      emptyKey).buf.data 0 (d.data.take d.maxWritePos), d.maxWritePos⟩⟩).getD i
      defaultStatic
      = ⟨d.key, ⟨listWrite ((st.getD i defaultStatic).resetWith
        emptyKey).buf.data 0 (d.data.take d.maxWritePos), d.maxWritePos⟩⟩ := by
    rw [List.getD_eq_getElem?_getD, List.getElem?_set_eq_of_lt _ hilen]
    rfl
  rw [hgd2, Option.map_some']
  dsimp only
  congr 1
  refine staticRead_eq_dynRead _ d ?_ ?_ off len
  · rfl
  have hpre := listWrite_prefix
    ((st.getD i defaultStatic).resetWith emptyKey).buf.data
    (d.data.take d.maxWritePos)
  rw [hbytes_len] at hpre
  exact hpre

/-- Witness for C2, in the spec's own scenario: one static slot (capacity 64)
occupied by key (2,0), a dynamic entry holding 40 bytes under key (1,0);
removing (2,0) migrates the dynamic entry: the dynamic list empties, its two
pool blocks (node + chain block) are freed, and reading back 40 bytes under
(1,0) returns the pre-migration content. -/
theorem c2_migration_witness :
    ((⟨64, 56, [⟨⟨2, 0⟩, ⟨List.replicate 64 0, 5⟩⟩],
        [⟨⟨1, 0⟩, 64, 40, 1, List.replicate 56 3⟩], 10⟩ : Manager).remove
        ⟨2, 0⟩).dynamics = [] ∧
      ((⟨64, 56, [⟨⟨2, 0⟩, ⟨List.replicate 64 0, 5⟩⟩],
        [⟨⟨1, 0⟩, 64, 40, 1, List.replicate 56 3⟩], 10⟩ : Manager).remove
        ⟨2, 0⟩).pool = 10 + 1 + 1 ∧
      ((⟨64, 56, [⟨⟨2, 0⟩, ⟨List.replicate 64 0, 5⟩⟩],
        [⟨⟨1, 0⟩, 64, 40, 1, List.replicate 56 3⟩], 10⟩ : Manager).remove
        ⟨2, 0⟩).accessRead ⟨1, 0⟩ 0 40
        = some ((⟨⟨1, 0⟩, 64, 40, 1, List.replicate 56 3⟩ : DynBuf).read 0 40) := by
  have h := c2_migration
    ⟨64, 56, [⟨⟨2, 0⟩, ⟨List.replicate 64 0, 5⟩⟩],
      [⟨⟨1, 0⟩, 64, 40, 1, List.replicate 56 3⟩], 10⟩
    ⟨2, 0⟩ 0 ⟨⟨1, 0⟩, 64, 40, 1, List.replicate 56 3⟩ []
    (by decide) rfl (by decide)
    (by
      intro j hj hji
      simp only [List.length_cons, List.length_nil] at hj
      exact absurd (by omega : j = 0) hji)
    (by decide) (by decide)
  exact ⟨h.1, h.2.1, h.2.2 0 40⟩

/-! ### Round-trip helpers -/

theorem static_key_not_of_not_live {m : Manager} {k : MgrKey}
    (h : k ∉ liveKeys m) (hke : k.isEmpty = false) :
    ∀ e ∈ m.statics, e.key ≠ k := by
  intro e he hek
  exact h (List.mem_append_left _ (List.mem_filter.mpr
    ⟨List.mem_map.mpr ⟨e, he, hek⟩, by simp [notEmptyK, hke]⟩))

theorem dyn_key_not_of_not_live {m : Manager} {k : MgrKey}
    (h : k ∉ liveKeys m) : ∀ d ∈ m.dynamics, d.key ≠ k := by
  intro d hd hdk
  exact h (List.mem_append_right _ (List.mem_map.mpr ⟨d, hd, hdk⟩))

theorem staticRead_nil_len (b : StaticBuffer) (hm : b.maxWritePos = 0) :
    b.read 0 0 = [] := by
  unfold StaticBuffer.read
  rw [if_pos (by omega)]

theorem static_write_read_roundtrip (data0 : List Nat) (P : List Nat)
    (hw : ((⟨data0, 0⟩ : StaticBuffer).write 0 P).2 = P.length) :
    ((⟨data0, 0⟩ : StaticBuffer).write 0 P).1.read 0 P.length = P := by
  unfold StaticBuffer.write at hw ⊢
  dsimp only at hw ⊢
  by_cases h0 : (0 : Nat) ≥ data0.length
  · rw [if_pos h0] at hw ⊢
    have hP : P = [] := List.length_eq_zero.mp hw.symm
    subst hP
    exact staticRead_nil_len _ rfl
  · rw [if_neg h0] at hw ⊢
    dsimp only at hw ⊢
    rw [hw, List.take_length]
    by_cases hP0 : P.length = 0
    · have hP : P = [] := List.length_eq_zero.mp hP0
      subst hP
      exact staticRead_nil_len _ (by simp)
    · unfold StaticBuffer.read
      rw [if_neg (by dsimp only; omega)]
      dsimp only
      rw [if_neg (by omega), List.drop_zero]
      exact listWrite_prefix data0 P

theorem dyn_write_read_roundtrip (bs maxSize pool : Nat) (k : MgrKey)
    (P : List Nat)
    (hw : (DynBuf.write bs ⟨k, maxSize, 0, 0, []⟩ 0 P pool).2.1 = P.length) :
    (DynBuf.write bs ⟨k, maxSize, 0, 0, []⟩ 0 P pool).1.read 0 P.length = P := by
  unfold DynBuf.write at hw ⊢
  dsimp only at hw ⊢
  by_cases h0 : (0 : Nat) ≥ maxSize
  · rw [if_pos h0] at hw ⊢
    have hP : P = [] := List.length_eq_zero.mp hw.symm
    subst hP
    exact dynRead_len_zero _ 0
  · rw [if_neg h0] at hw ⊢
    by_cases hwl : (if 0 + P.length > maxSize then maxSize - 0 else P.length) = 0
    · rw [if_pos hwl] at hw ⊢
      have hP : P = [] := List.length_eq_zero.mp hw.symm
      subst hP
      exact dynRead_len_zero _ 0
    · rw [if_neg hwl] at hw ⊢
      dsimp only at hw ⊢
      rw [hw, List.take_length]
      by_cases hP0 : P.length = 0
      · have hP : P = [] := List.length_eq_zero.mp hP0
        subst hP
        exact dynRead_len_zero _ 0
      · rw [if_neg hP0]
        unfold DynBuf.read
        rw [if_neg (by dsimp only; omega)]
        dsimp only
        rw [if_neg (by omega), List.drop_zero, List.nil_append]
        exact listWrite_prefix _ P

theorem dynWrite_key (bs : Nat) (d : DynBuf) (off : Nat) (P : List Nat)
    (pool : Nat) : (DynBuf.write bs d off P pool).1.key = d.key := by
  unfold DynBuf.write
  dsimp only
  split_ifs <;> rfl

/-! ## Claim C5: round-trip through create/write/access/read -/

/-- Counterexample to C5 as stated: with all static slots occupied and exactly
one free pool block, `create` succeeds (dynamically, consuming the last
block), the pattern length 3 is within the configured maximum 4, the write is
performed — but the pool is exhausted, so the write stores nothing (returns
0), and the subsequent `access`/`read` does not return the pattern. -/
theorem c5_counterexample :
    ((⟨4, 2, [⟨⟨9, 0⟩, ⟨[0, 0, 0, 0], 0⟩⟩], [], 1⟩ : Manager).create
        ⟨1, 0⟩).2 = true ∧
      ([1, 2, 3] : List Nat).length
        ≤ (⟨4, 2, [⟨⟨9, 0⟩, ⟨[0, 0, 0, 0], 0⟩⟩], [], 1⟩ : Manager).maxBufSize ∧
      ¬((((⟨4, 2, [⟨⟨9, 0⟩, ⟨[0, 0, 0, 0], 0⟩⟩], [], 1⟩ : Manager).create
          ⟨1, 0⟩).1.writeTo ⟨1, 0⟩ 0 [1, 2, 3]).1.accessRead ⟨1, 0⟩ 0 3
        = some [1, 2, 3]) := by
  refine ⟨by decide, by decide, by decide⟩

/-- C5 (amended): for every non-empty key and byte pattern `P` of length `L`
at most the configured maximum buffer size, if `create(key)` succeeds and the
subsequent `write(0, P, L)` on the returned handle reports `L` bytes written
(which can fail to happen only when the pool runs out of blocks mid-write on
the dynamic path — a partial write per the spec), then `access(key)` followed
by `read(0, out, L)` returns exactly the `L` bytes of `P`. -/
theorem c5_roundtrip (m : Manager) (k : MgrKey) (P : List Nat)
    (hinv : Inv m) (hke : k.isEmpty = false)
    (hlen : P.length ≤ m.maxBufSize)
    (hsucc : (m.create k).2 = true)
    (hw : ((m.create k).1.writeTo k 0 P).2 = P.length) :
    ((m.create k).1.writeTo k 0 P).1.accessRead k 0 P.length = some P := by
  obtain ⟨h1, -, hnot1⟩ := remove_spec m k hinv
  have hnotk : k ∉ liveKeys (m.remove k) := hnot1 hke
  have hstat_ne : ∀ e ∈ (m.remove k).statics, e.key ≠ k :=
    static_key_not_of_not_live hnotk hke
  rcases create_cases m k hke with ⟨i, hf, heq⟩ | ⟨hf, hp, heq⟩ | ⟨hf, hp, heq⟩
  · -- static slot claimed
    rw [heq] at hw ⊢
    dsimp only at hw ⊢
    have hilen : i < (m.remove k).statics.length := by
      obtain ⟨e, he, -⟩ := ffs_some hf
      exact (List.getElem?_eq_some_iff.mp he).1
    have hffk : findFirstStatic k ((m.remove k).statics.set i
        (((m.remove k).statics.getD i defaultStatic).resetWith k)) = some i := by
      refine ffs_of_getElem? (List.getElem?_set_eq_of_lt _ hilen) rfl ?_
      intro j hj e' he' hke'
      rw [List.getElem?_set_ne (by omega)] at he'
      exact hstat_ne e' (List.mem_iff_getElem?.mpr ⟨j, he'⟩) hke'
    unfold Manager.writeTo at hw ⊢
    dsimp only at hw ⊢
    rw [hffk] at hw ⊢
    dsimp only at hw ⊢
    have hgde : (((m.remove k).statics.set i
        (((m.remove k).statics.getD i defaultStatic).resetWith k)).getD i
          defaultStatic)
        = ((m.remove k).statics.getD i defaultStatic).resetWith k := by
      rw [List.getD_eq_getElem?_getD, List.getElem?_set_eq_of_lt _ hilen]
      rfl
    rw [hgde] at hw ⊢
    rw [List.set_set]
    unfold StaticEntry.resetWith StaticBuffer.reset at hw ⊢
    dsimp only at hw ⊢
    have hread := static_write_read_roundtrip
      ((m.remove k).statics.getD i defaultStatic).buf.data P hw
    unfold Manager.accessRead Manager.access
    dsimp only
    rw [if_neg (by simp [hke])]
    have hffk2 : findFirstStatic k ((m.remove k).statics.set i
        ⟨k, (StaticBuffer.write
          ⟨((m.remove k).statics.getD i defaultStatic).buf.data, 0⟩ 0 P).1⟩)
        = some i := by
      refine ffs_of_getElem? (List.getElem?_set_eq_of_lt _ hilen) rfl ?_
      intro j hj e' he' hke'
      rw [List.getElem?_set_ne (by omega)] at he'
      exact hstat_ne e' (List.mem_iff_getElem?.mpr ⟨j, he'⟩) hke'
    rw [hffk2]
    dsimp only
    have hgde2 : (((m.remove k).statics.set i
        ⟨k, (StaticBuffer.write
          ⟨((m.remove k).statics.getD i defaultStatic).buf.data, 0⟩ 0 P).1⟩).getD
            i defaultStatic)
        = ⟨k, (StaticBuffer.write
          ⟨((m.remove k).statics.getD i defaultStatic).buf.data, 0⟩ 0 P).1⟩ := by
      rw [List.getD_eq_getElem?_getD, List.getElem?_set_eq_of_lt _ hilen]
      rfl
    rw [hgde2, Option.map_some']
    dsimp only
    exact congrArg some hread
  · -- pool-exhausted branch contradicts success
    rw [heq] at hsucc
    cases hsucc
  · -- dynamic entry allocated
    rw [heq] at hw ⊢
    dsimp only at hw ⊢
    have hffn : findFirstStatic k (m.remove k).statics = none :=
      ffs_none_of hstat_ne
    unfold Manager.writeTo at hw ⊢
    dsimp only at hw ⊢
    rw [hffn] at hw ⊢
    dsimp only at hw ⊢
    rw [findFirstDynamic, if_pos rfl] at hw ⊢
    dsimp only at hw ⊢
    have hread := dyn_write_read_roundtrip (m.remove k).blockSize
      (m.remove k).maxBufSize ((m.remove k).pool - 1) k P hw
    unfold Manager.accessRead Manager.access
    dsimp only
    rw [if_neg (by simp [hke])]
    rw [replaceFirstDynamic, if_pos rfl]
    simp only [hffn]
    rw [findFirstDynamic, if_pos (dynWrite_key _ _ _ _ _)]
    rw [Option.map_some']
    exact congrArg some hread

/-- Witness for C5 (amended): static path on a fresh 2-slot manager. -/
theorem c5_roundtrip_witness :
    (((Manager.init 4 2 8 3).create ⟨1, 0⟩).1.writeTo ⟨1, 0⟩ 0
        [10, 20, 30]).1.accessRead ⟨1, 0⟩ 0 3 = some [10, 20, 30] :=
  c5_roundtrip (Manager.init 4 2 8 3) ⟨1, 0⟩ [10, 20, 30] (by decide)
    (by decide) (by decide) (by decide) (by decide)

/-! ## Claim C3: static write clamping -/

/-- C3: for a Static Buffer of capacity `C` (and any input bytes, i.e. every
non-null input pointer), `write(offset, data, len)` returns 0 and changes
nothing when `offset ≥ C`; when `offset < C` and `offset + len > C` it writes
exactly `C - offset` bytes; otherwise it writes `len` bytes; it never writes
outside the `C`-byte array (the array keeps length `C` and bytes outside the
written range are untouched); and whenever a write happens (`offset < C`) it
updates `max_write_pos` to the maximum of its old value and `offset` plus the
bytes actually written. -/
theorem c3_staticWrite_clamp (b : StaticBuffer) (offset : Nat) (bytes : List Nat)
    (C : Nat) (hC : b.data.length = C) :
    (offset ≥ C → b.write offset bytes = (b, 0)) ∧
    (offset < C → offset + bytes.length > C → (b.write offset bytes).2 = C - offset) ∧
    (offset < C → offset + bytes.length ≤ C → (b.write offset bytes).2 = bytes.length) ∧
    (b.write offset bytes).1.data.length = C ∧
    (∀ i, i < offset ∨ offset + (b.write offset bytes).2 ≤ i →
      (b.write offset bytes).1.data[i]? = b.data[i]?) ∧
    (offset < C →
      (b.write offset bytes).1.maxWritePos
        = max b.maxWritePos (offset + (b.write offset bytes).2)) := by
  subst hC
  rcases Nat.lt_or_ge offset b.data.length with hlt | hge
  · have hnot : ¬(offset ≥ b.data.length) := Nat.not_le.mpr hlt
    set len' := if offset + bytes.length > b.data.length
                then b.data.length - offset else bytes.length with hlen'
    have hw : b.write offset bytes =
        ({ data := listWrite b.data offset (bytes.take len'),
           maxWritePos := max (offset + len') b.maxWritePos }, len') := by
      rw [StaticBuffer.write]
      simp only [hnot, if_false, ← hlen']
    have hfit : offset + len' ≤ b.data.length := by
      rw [hlen']
      split <;> omega
    have htake : (bytes.take len').length = len' := by
      rw [List.length_take]
      rw [hlen']
      split <;> omega
    refine ⟨fun h => absurd h hnot, fun _ hgt => ?_, fun _ hle => ?_, ?_, ?_, fun _ => ?_⟩
    · rw [hw]
      simp only [hlen']
      rw [if_pos hgt]
    · rw [hw]
      simp only [hlen']
      rw [if_neg (by omega)]
    · rw [hw]
      exact listWrite_length _ _ _ (by rw [htake]; exact hfit)
    · intro i hi
      rw [hw] at hi ⊢
      simp only at hi ⊢
      rcases hi with hi | hi
      · exact listWrite_getElem?_left _ _ _ _ (by omega) hi
      · exact listWrite_getElem?_right _ _ _ _ (by omega) (by rw [htake]; omega)
    · rw [hw]
      simp [Nat.max_comm]
  · have h0 : b.write offset bytes = (b, 0) := by
      rw [StaticBuffer.write, if_pos hge]
    refine ⟨fun _ => h0, fun h _ => absurd hge (by omega), fun h _ => absurd hge (by omega),
           by rw [h0], fun i _ => by rw [h0], fun h => absurd hge (by omega)⟩

/-- Witness for C3 at a concrete input: capacity 4, offset 2, three input
bytes; exactly two bytes are written and the byte below the offset is
untouched. -/
theorem c3_staticWrite_clamp_witness :
    ((⟨[5, 5, 5, 5], 1⟩ : StaticBuffer).write 2 [7, 7, 7]).2 = 4 - 2 ∧
    ((⟨[5, 5, 5, 5], 1⟩ : StaticBuffer).write 2 [7, 7, 7]).1.data.length = 4 ∧
    ((⟨[5, 5, 5, 5], 1⟩ : StaticBuffer).write 2 [7, 7, 7]).1.data[0]?
      = ([5, 5, 5, 5] : List Nat)[0]? ∧
    ((⟨[5, 5, 5, 5], 1⟩ : StaticBuffer).write 2 [7, 7, 7]).1.maxWritePos
      = max 1 (2 + ((⟨[5, 5, 5, 5], 1⟩ : StaticBuffer).write 2 [7, 7, 7]).2) :=
  ⟨(c3_staticWrite_clamp ⟨[5, 5, 5, 5], 1⟩ 2 [7, 7, 7] 4 (by decide)).2.1
      (by decide) (by decide),
   (c3_staticWrite_clamp ⟨[5, 5, 5, 5], 1⟩ 2 [7, 7, 7] 4 (by decide)).2.2.2.1,
   (c3_staticWrite_clamp ⟨[5, 5, 5, 5], 1⟩ 2 [7, 7, 7] 4 (by decide)).2.2.2.2.1 0
      (Or.inl (by decide)),
   (c3_staticWrite_clamp ⟨[5, 5, 5, 5], 1⟩ 2 [7, 7, 7] 4 (by decide)).2.2.2.2.2
      (by decide)⟩

/-! ## Claim C6: high-water semantics of the static buffer -/

/-- Counterexample to C6 as stated: after writing `[0,5)` and `[10,15)` into a
20-byte static buffer, `read(5, out, 5)` does NOT return 0 bytes — it returns
5 bytes (the zero-initialized gap lies below the high-water mark 15, and the
read clamps only to `max_write_pos_`). -/
theorem c6_counterexample :
    ((((StaticBuffer.init 20).write 0 [1, 2, 3, 4, 5]).1.write 10
        [6, 7, 8, 9, 10]).1.read 5 5).length = 5 ∧
    ¬(((((StaticBuffer.init 20).write 0 [1, 2, 3, 4, 5]).1.write 10
        [6, 7, 8, 9, 10]).1.read 5 5).length = 0) := by
  constructor <;> decide

/-- C6 (amended): for a 20-byte Static Buffer, after writing 5 bytes at offset
0 and 5 bytes at offset 10 in either order, `read(5, out, 5)` returns 5 bytes,
all zero (the unwritten gap lies below the high-water mark and reads back as
the zero-initialized array content), `read(0, out, 5)` returns the 5 bytes
written at offset 0, and `max_write_pos` equals 15, the highest offset plus
length ever written, independent of the write order. -/
theorem c6_highwater (p q : List Nat) (hp : p.length = 5) (hq : q.length = 5) :
    ((((StaticBuffer.init 20).write 0 p).1.write 10 q).1.read 5 5
        = List.replicate 5 0 ∧
      (((StaticBuffer.init 20).write 0 p).1.write 10 q).1.read 0 5 = p ∧
      (((StaticBuffer.init 20).write 0 p).1.write 10 q).1.maxWritePos = 15) ∧
    ((((StaticBuffer.init 20).write 10 q).1.write 0 p).1.read 5 5
        = List.replicate 5 0 ∧
      (((StaticBuffer.init 20).write 10 q).1.write 0 p).1.read 0 5 = p ∧
      (((StaticBuffer.init 20).write 10 q).1.write 0 p).1.maxWritePos = 15) := by
  rcases p with _ | ⟨a1, _ | ⟨a2, _ | ⟨a3, _ | ⟨a4, _ | ⟨a5, _ | p⟩⟩⟩⟩⟩ <;> simp_all
  rcases q with _ | ⟨b1, _ | ⟨b2, _ | ⟨b3, _ | ⟨b4, _ | ⟨b5, _ | q⟩⟩⟩⟩⟩ <;> simp_all
  refine ⟨⟨?_, ?_, ?_⟩, ?_, ?_, ?_⟩ <;>
    simp [StaticBuffer.init, StaticBuffer.write, StaticBuffer.read, listWrite]

/-- Witness for C6 (amended) at concrete byte patterns. -/
theorem c6_highwater_witness :
    ((((StaticBuffer.init 20).write 0 [1, 2, 3, 4, 5]).1.write 10
        [6, 7, 8, 9, 10]).1.read 5 5 = List.replicate 5 0 ∧
      (((StaticBuffer.init 20).write 0 [1, 2, 3, 4, 5]).1.write 10
        [6, 7, 8, 9, 10]).1.read 0 5 = [1, 2, 3, 4, 5] ∧
      (((StaticBuffer.init 20).write 0 [1, 2, 3, 4, 5]).1.write 10
        [6, 7, 8, 9, 10]).1.maxWritePos = 15) ∧
    ((((StaticBuffer.init 20).write 10 [6, 7, 8, 9, 10]).1.write 0
        [1, 2, 3, 4, 5]).1.read 5 5 = List.replicate 5 0 ∧
      (((StaticBuffer.init 20).write 10 [6, 7, 8, 9, 10]).1.write 0
        [1, 2, 3, 4, 5]).1.read 0 5 = [1, 2, 3, 4, 5] ∧
      (((StaticBuffer.init 20).write 10 [6, 7, 8, 9, 10]).1.write 0
        [1, 2, 3, 4, 5]).1.maxWritePos = 15) :=
  c6_highwater [1, 2, 3, 4, 5] [6, 7, 8, 9, 10] (by decide) (by decide)

end Uavcan
